import Mathlib

/-! Verification development for the NetworkView repository.

The core under scrutiny is the DuckDB SQL pipeline of
`tools/build_frontend_data.py`, which enriches transport routes with
primary region assignments and pipe-delimited multi-membership lists for
two region layers (local authorities `la_*` and regional transport
partnerships `rpt_*`), plus the path translation of `tools/dev_server.py`.

Modelling conventions:
- SQL `VARCHAR` values are modelled as `List Char`.
- SQL `DOUBLE` is modelled as `ℚ`; nullable numeric columns as `Option ℚ`.
- The external geometry engine (DuckDB spatial functions `ST_Transform`,
  `ST_Length`, `ST_Intersects`, `ST_Intersection`, `ST_IsValid`) is an
  abstract structure of functions, since the pipeline only consumes it.
- SQL tables are lists of rows; `GROUP BY` aggregation is modelled by
  grouping over the deduplicated key list in first-appearance order, and
  `arg_max` by `List.argmax` (both aggregates of one `GROUP BY` scan the
  group in the same row order, so `arg_max(code, len)` and
  `arg_max(name, len)` are read off the same maximal row).
- The `la_*` and `rpt_*` table definitions in the source are the same
  queries with renamed columns, so one generic definition per stage
  models both layers.
-/

namespace NetworkView

/-- Abstract geometry engine consumed by the pipeline (DuckDB spatial). -/
structure GeomEngine (G : Type) where
  transform : G → G
  lengthOf : G → Option ℚ
  intersects : G → G → Bool
  intersection : G → G → G
  isValid : G → Bool

/-- An input route: opaque pass-through attributes and original geometry
(`routes_raw` / `routes`, lines 205-227). -/
structure RouteIn (A G : Type) where
  attrs : A
  geom : G
  deriving DecidableEq

/-- A row of `routes_len` (lines 232-237): `row_number()` id, original
geometry, projected geometry and projected length. -/
structure RouteLen (A G : Type) where
  routeId : ℕ
  attrs : A
  geom : G
  geom27700 : G
  lengthM : Option ℚ
  deriving DecidableEq

/-- `routes` + `routes_len` (lines 218-237): assign `row_number() OVER ()`
ids starting at 1, project each geometry and measure its length. -/
def routesLen {A G : Type} (e : GeomEngine G) (rs : List (RouteIn A G)) :
    List (RouteLen A G) :=
  rs.enum.map (fun p =>
    ⟨p.1 + 1, p.2.attrs, p.2.geom, e.transform p.2.geom,
      e.lengthOf (e.transform p.2.geom)⟩)

/-- A region of either layer (`la` table lines 255-265, `rpt` table lines
283-293): code, display name, projected geometry. -/
structure Region (G : Type) where
  code : List Char
  name : List Char
  geom27700 : G
  deriving DecidableEq

/-- A row of `la_intersections` / `rpt_intersections` before cleaning. -/
structure InterRow where
  routeId : ℕ
  code : List Char
  name : List Char
  lenM : Option ℚ
  deriving DecidableEq

/-- `la_intersections` (lines 309-320) / `rpt_intersections` (389-400):
join routes with regions on `ST_Intersects` and record
`ST_Length(ST_Intersection(...))`.  Validity of the region geometry is
not consulted here. -/
def intersectionsTable {A G : Type} (e : GeomEngine G)
    (rl : List (RouteLen A G)) (regions : List (Region G)) : List InterRow :=
  (rl.map (fun r =>
    (regions.filter (fun g => e.intersects r.geom27700 g.geom27700)).map
      (fun g => ⟨r.routeId, g.code, g.name,
        e.lengthOf (e.intersection r.geom27700 g.geom27700)⟩))).flatten

/-- A retained intersection row after the cleaning `DELETE`: its length is
defined (non-NULL), carried as a plain rational. -/
structure CleanRow where
  routeId : ℕ
  code : List Char
  name : List Char
  len : ℚ
  deriving DecidableEq

/-- The cleaning step (line 326 / 406):
`DELETE FROM *_intersections WHERE len_m IS NULL OR len_m <= 0`,
i.e. keep exactly the rows whose length is defined and positive. -/
def cleanTable (rows : List InterRow) : List CleanRow :=
  rows.filterMap (fun i =>
    match i.lenM with
    | some l => if 0 < l then some ⟨i.routeId, i.code, i.name, l⟩ else none
    | none => none)

/-- The rows of one route's group (`GROUP BY route_id`). -/
def groupOf (rows : List CleanRow) (rid : ℕ) : List CleanRow :=
  rows.filter (fun r => r.routeId == rid)

/-- A row of `la_primary` / `rpt_primary`. -/
structure PrimaryRow where
  routeId : ℕ
  code : List Char
  name : List Char
  deriving DecidableEq

/-- `la_primary` (lines 333-343) / `rpt_primary` (413-423): per route id,
`arg_max(code, len_m)` and `arg_max(name, len_m)`, both read off the same
maximal row of the group. -/
def primaryTable (rows : List CleanRow) : List PrimaryRow :=
  ((rows.map (fun r => r.routeId)).dedup).filterMap (fun rid =>
    ((groupOf rows rid).argmax (fun r => r.len)).map
      (fun m => ⟨rid, m.code, m.name⟩))

/-- A row of `la_final` / `rpt_final`: nullable primary code and name. -/
structure FinalRow where
  routeId : ℕ
  code : Option (List Char)
  name : Option (List Char)
  deriving DecidableEq

/-- `la_final` (lines 349-359) / `rpt_final` (429-439): `routes_len LEFT
JOIN *_primary` on the route id, yielding NULL code/name for routes
without a primary row. -/
def finalTable {A G : Type} (e : GeomEngine G) (routes : List (RouteIn A G))
    (regions : List (Region G)) : List FinalRow :=
  let rl := routesLen e routes
  let prim := primaryTable (cleanTable (intersectionsTable e rl regions))
  rl.map (fun r =>
    match prim.find? (fun p => p.routeId == r.routeId) with
    | some p => ⟨r.routeId, some p.code, some p.name⟩
    | none => ⟨r.routeId, none, none⟩)

/-- Threshold configuration (`--min-length-m`, `--min-share`). -/
structure Config where
  minLengthM : ℚ
  minShare : ℚ
  deriving DecidableEq

/-- SQL `NULLIF(x, 0)` on a nullable numeric column. -/
def nullifZero (x : Option ℚ) : Option ℚ :=
  match x with
  | some v => if v = 0 then none else some v
  | none => none

/-- SQL `a / b` on nullable operands (NULL-propagating; the source only
divides by `NULLIF(..., 0)`, so the zero-divisor case never arises). -/
def sqlDiv (a b : Option ℚ) : Option ℚ :=
  match a, b with
  | some x, some y => some (x / y)
  | _, _ => none

/-- SQL `a >= b` as used by `WHERE`: NULL comparisons are not true. -/
def sqlGe (a b : Option ℚ) : Bool :=
  match a, b with
  | some x, some y => decide (y ≤ x)
  | _, _ => false

/-- The membership `WHERE` clause (line 376 / 456):
`i.len_m >= min_length_m AND i.len_m / NULLIF(r.route_length_m, 0) >= min_share`. -/
def wherePred (cfg : Config) (total : Option ℚ) (lenm : ℚ) : Bool :=
  sqlGe (some lenm) (some cfg.minLengthM) &&
    sqlGe (sqlDiv (some lenm) (nullifZero total)) (some cfg.minShare)

/-- The `FROM *_intersections i JOIN routes_len r ... WHERE ...` part of
the membership query: cleaned rows that pass both threshold tests against
their route's total length. -/
def survivors {A G : Type} (rl : List (RouteLen A G)) (rows : List CleanRow)
    (cfg : Config) : List CleanRow :=
  rows.filter (fun i =>
    match rl.find? (fun r => r.routeId == i.routeId) with
    | some r => wherePred cfg r.lengthM i.len
    | none => false)

/-- Descending-length comparison used to model `ORDER BY len_m DESC`. -/
def lenGE (a b : CleanRow) : Prop := b.len ≤ a.len

instance : DecidableRel lenGE := fun a b => inferInstanceAs (Decidable (b.len ≤ a.len))

instance : IsTotal CleanRow lenGE := ⟨fun a b => le_total b.len a.len⟩

instance : IsTrans CleanRow lenGE := ⟨fun _ _ _ h1 h2 => le_trans h2 h1⟩

/-- Stable sort of a group by descending overlap length
(`ORDER BY i.len_m DESC` inside `string_agg`). -/
def lenDescSort (g : List CleanRow) : List CleanRow :=
  List.insertionSort lenGE g

/-- `'|' || string_agg(x, '|' ORDER BY ...) || '|'` (lines 372-373 /
452-453): the pipe-delimited serialization of a value list. -/
def pipeJoin (ss : List (List Char)) : List Char :=
  '|' :: (['|'].intercalate ss ++ ['|'])

/-- A row of `la_membership` / `rpt_membership`. -/
structure MemRow where
  routeId : ℕ
  codes : List Char
  names : List Char
  deriving DecidableEq

/-- `la_membership` (lines 367-379) / `rpt_membership` (447-459): group
the threshold-surviving rows by route id and serialize the codes and the
names of each group, both ordered by descending overlap length. -/
def membershipTable {A G : Type} (rl : List (RouteLen A G))
    (rows : List CleanRow) (cfg : Config) : List MemRow :=
  let surv := survivors rl rows cfg
  ((surv.map (fun r => r.routeId)).dedup).map (fun rid =>
    let g := lenDescSort (groupOf surv rid)
    ⟨rid, pipeJoin (g.map (fun r => r.code)),
      pipeJoin (g.map (fun r => r.name))⟩)

/-- Count of regions still invalid after `ST_MakeValid` (line 304:
`SELECT COUNT(*) FROM la WHERE ST_IsValid(geom_27700) = false`). -/
def invalidCount {G : Type} (e : GeomEngine G) (regions : List (Region G)) : ℕ :=
  (regions.filter (fun g => e.isValid g.geom27700 == false)).length

/-- The warning of lines 305-306: surfaced (with the count) exactly when
some region is still invalid; the run continues either way. -/
def invalidWarning {G : Type} (e : GeomEngine G) (regions : List (Region G)) :
    Option ℕ :=
  if 0 < invalidCount e regions then some (invalidCount e regions) else none

/-- The same engine with the validity oracle replaced, used to state that
matching never consults validity. -/
def withValid {G : Type} (e : GeomEngine G) (v : G → Bool) : GeomEngine G :=
  { e with isValid := v }

/-- A row of `routes_out` (lines 481-501): pass-through attributes, the
original geometry, and the eight nullable enrichment columns. -/
structure OutRecord (A G : Type) where
  attrs : A
  geometry : G
  la_code : Option (List Char)
  la_name : Option (List Char)
  la_codes : Option (List Char)
  la_names : Option (List Char)
  rpt_code : Option (List Char)
  rpt_name : Option (List Char)
  rpt_codes : Option (List Char)
  rpt_names : Option (List Char)

/-- `routes_out` (lines 481-501): `routes_len` LEFT JOINed with
`la_final`, `la_membership`, `rpt_final` and `rpt_membership` on the
route id; `geom AS geometry` exports the original geometry column of
`routes_len`, not `geom_27700`. -/
def routesOut {A G : Type} (e : GeomEngine G) (routes : List (RouteIn A G))
    (las rpts : List (Region G)) (cfg : Config) : List (OutRecord A G) :=
  let rl := routesLen e routes
  let laF := finalTable e routes las
  let laM := membershipTable rl (cleanTable (intersectionsTable e rl las)) cfg
  let rptF := finalTable e routes rpts
  let rptM := membershipTable rl (cleanTable (intersectionsTable e rl rpts)) cfg
  rl.map (fun r =>
    let lf := laF.find? (fun x => x.routeId == r.routeId)
    let lm := laM.find? (fun x => x.routeId == r.routeId)
    let pf := rptF.find? (fun x => x.routeId == r.routeId)
    let pm := rptM.find? (fun x => x.routeId == r.routeId)
    { attrs := r.attrs
      geometry := r.geom
      la_code := lf.bind (fun x => x.code)
      la_name := lf.bind (fun x => x.name)
      la_codes := lm.map (fun x => x.codes)
      la_names := lm.map (fun x => x.names)
      rpt_code := pf.bind (fun x => x.code)
      rpt_name := pf.bind (fun x => x.name)
      rpt_codes := pm.map (fun x => x.codes)
      rpt_names := pm.map (fun x => x.names) })

/-! ## Embedding of tools/dev_server.py

Request paths and filesystem paths are modelled at the character level
(`List Char`); a filesystem directory is its list of path segments.
`Path.resolve()` is modelled lexically (absolute-path normalization; the
filesystem is assumed symlink-free), and `Path.relative_to` as the
segmentwise prefix test it performs on absolute paths. -/

/-- `path.split("?", 1)[0].split("#", 1)[0]` (line 28). -/
def stripQueryFrag (p : List Char) : List Char :=
  (p.takeWhile (fun c => c != '?')).takeWhile (fun c => c != '#')

/-- One step of `posixpath.normpath`'s component loop: skip empty and
`.` components, keep `..` when the path is relative and nothing precedes
it (or the previous kept component is `..`), otherwise pop. -/
def normStep (slashes : ℕ) (acc : List (List Char)) (comp : List Char) :
    List (List Char) :=
  if comp = [] ∨ comp = ['.'] then acc
  else if comp ≠ ['.', '.'] ∨ (slashes = 0 ∧ acc = []) ∨
      acc.getLast? = some ['.', '.'] then acc ++ [comp]
  else if acc ≠ [] then acc.dropLast
  else acc

/-- `posixpath.normpath` (line 29): collapse `.`/`..`/repeated slashes,
preserving a double (but not triple) leading slash. -/
def normpath (p : List Char) : List Char :=
  if p = [] then ['.']
  else
    let slashes : ℕ :=
      if p.take 1 = ['/'] then
        if p.take 2 = ['/', '/'] ∧ p.take 3 ≠ ['/', '/', '/'] then 2 else 1
      else 0
    let joined := ['/'].intercalate ((p.splitOn '/').foldl (normStep slashes) [])
    let res := List.replicate slashes '/' ++ joined
    if res = [] then ['.'] else res

/-- `(root / rel).resolve()` of `_safe_join` (line 13), lexically: start
from the root's segments and process the relative segments, with `..`
popping one segment (staying at the filesystem root when empty). -/
def resolveUnder (root : List (List Char)) (segs : List (List Char)) :
    List (List Char) :=
  segs.foldl (fun acc c =>
    if c = [] ∨ c = ['.'] then acc
    else if c = ['.', '.'] then acc.dropLast
    else acc ++ [c]) root

/-- `_safe_join` (lines 11-18): strip leading slashes, resolve under the
root, and return the candidate only if the (resolved) root is a
segmentwise prefix of it (`Path.relative_to`), else `None`. -/
def safeJoin (root : List (List Char)) (rel : List Char) :
    Option (List (List Char)) :=
  let candidate := resolveUnder root ((rel.dropWhile (fun c => c == '/')).splitOn '/')
  if root.isPrefixOf candidate then some candidate else none

/-- The literal `"/data"`. -/
def dataLit : List Char := "/data".toList

/-- The literal `"/data/"`. -/
def dataSlashLit : List Char := "/data/".toList

/-- The literal `"/index.html"`. -/
def slashIndexLit : List Char := "/index.html".toList

/-- The literal `"index.html"`. -/
def indexLit : List Char := "index.html".toList

/-- `MultiRootHandler.translate_path` (lines 27-42): requests under
`/data` are joined to the data directory (falling back to the data root),
everything else to the public directory (falling back to
`public/index.html`). -/
def translatePath (dataRoot publicRoot : List (List Char)) (path : List Char) :
    List (List Char) :=
  let parsed := normpath (stripQueryFrag path)
  if parsed == dataLit || dataSlashLit.isPrefixOf parsed then
    (safeJoin dataRoot (parsed.drop 5)).getD dataRoot
  else
    let rel := if parsed = ['/'] then slashIndexLit else parsed
    (safeJoin publicRoot rel).getD (publicRoot ++ [indexLit])

/-! ## Concrete example inputs used by witnesses and counterexamples -/

/-- An engine over trivial geometry in which nothing intersects. -/
def unitEngineMiss : GeomEngine Unit :=
  ⟨id, fun _ => some 0, fun _ _ => false, fun _ _ => (), fun _ => true⟩

/-- An engine over trivial geometry in which everything intersects with
length 100 (and every route has total length 100). -/
def unitEngineHit : GeomEngine Unit :=
  ⟨id, fun _ => some 100, fun _ _ => true, fun _ _ => (), fun _ => true⟩

/-- An engine whose regions are all invalid yet still intersect routes
with positive length. -/
def unitEngineInvalid : GeomEngine Unit :=
  ⟨id, fun _ => some 5, fun _ _ => true, fun _ _ => (), fun _ => false⟩

/-- A single example input route. -/
def exRoute : RouteIn Unit Unit := ⟨(), ()⟩

/-- Example region `A`. -/
def regionA : Region Unit := ⟨['A'], ['A'], ()⟩

/-- Example region `C` (the invalid-geometry region of the §8 scenario). -/
def regionC : Region Unit := ⟨['C'], ['C'], ()⟩

/-- Example thresholds: 10 m floor and 25 % share. -/
def exCfg : Config := ⟨10, 1 / 4⟩

/-- A concrete cleaned overlap table: route 1 overlaps region `A` for
100 m and region `B` for 50 m. -/
def exCleanRows : List CleanRow :=
  [⟨1, ['A'], ['A'], 100⟩, ⟨1, ['B'], ['B'], 50⟩]

/-- The `routes_len` table of the all-hit example. -/
def exRl : List (RouteLen Unit Unit) := routesLen unitEngineHit [exRoute]

/-- The cleaned overlap table of the all-hit example against region `A`. -/
def exRows : List CleanRow :=
  cleanTable (intersectionsTable unitEngineHit exRl [regionA])

/-! ## Helper lemmas -/

lemma mem_groupOf {rows : List CleanRow} {rid : ℕ} {r : CleanRow} :
    r ∈ groupOf rows rid ↔ r ∈ rows ∧ r.routeId = rid := by
  simp [groupOf]

lemma primary_fun_routeId {rows : List CleanRow} {rid : ℕ} {p : PrimaryRow}
    (h : ((groupOf rows rid).argmax (fun r => r.len)).map
      (fun m => (⟨rid, m.code, m.name⟩ : PrimaryRow)) = some p) :
    p.routeId = rid := by
  rcases Option.map_eq_some'.mp h with ⟨m, _, hp⟩
  subst hp
  rfl

lemma primary_of_mem {rows : List CleanRow} {p : PrimaryRow}
    (hp : p ∈ primaryTable rows) :
    ∃ m ∈ groupOf rows p.routeId, p.code = m.code ∧ p.name = m.name ∧
      ∀ x ∈ groupOf rows p.routeId, x.len ≤ m.len := by
  rcases List.mem_filterMap.mp hp with ⟨rid, _hrid, hsome⟩
  rcases Option.map_eq_some'.mp hsome with ⟨m, hm, hpm⟩
  subst hpm
  exact ⟨m, List.argmax_mem (Option.mem_def.mpr hm), rfl, rfl,
    fun x hx => List.le_of_mem_argmax hx (Option.mem_def.mpr hm)⟩

lemma nodup_primary_aux (rows : List CleanRow) :
    ∀ d : List ℕ, d.Nodup →
      ((d.filterMap (fun rid =>
          ((groupOf rows rid).argmax (fun r => r.len)).map
            (fun m => (⟨rid, m.code, m.name⟩ : PrimaryRow)))).map
        (fun p => p.routeId)).Nodup := by
  intro d
  induction d with
  | nil => simp
  | cons a t ih =>
    intro hd
    rcases List.nodup_cons.mp hd with ⟨ha, ht⟩
    rw [List.filterMap_cons]
    cases h : ((groupOf rows a).argmax (fun r => r.len)).map
        (fun m => (⟨a, m.code, m.name⟩ : PrimaryRow)) with
    | none => exact ih ht
    | some p =>
      rw [List.map_cons, List.nodup_cons]
      refine ⟨?_, ih ht⟩
      intro hmem
      rcases List.mem_map.mp hmem with ⟨q, hq, hqp⟩
      rcases List.mem_filterMap.mp hq with ⟨rid, hridt, hfq⟩
      have h1 : q.routeId = rid := primary_fun_routeId hfq
      have h2 : p.routeId = a := primary_fun_routeId h
      have hra : rid = a := by rw [← h1, hqp, h2]
      exact ha (hra ▸ hridt)

lemma primaryTable_nodup (rows : List CleanRow) :
    ((primaryTable rows).map (fun p => p.routeId)).Nodup :=
  nodup_primary_aux rows _ (List.nodup_dedup _)

lemma primaryTable_exists {rows : List CleanRow} {rid : ℕ}
    (h : groupOf rows rid ≠ []) : ∃ p ∈ primaryTable rows, p.routeId = rid := by
  rcases List.exists_mem_of_ne_nil _ h with ⟨r, hr⟩
  rcases mem_groupOf.mp hr with ⟨hrow, hid⟩
  have hmem : rid ∈ (rows.map (fun s => s.routeId)).dedup :=
    List.mem_dedup.mpr (List.mem_map.mpr ⟨r, hrow, hid⟩)
  have hne : (groupOf rows rid).argmax (fun s => s.len) ≠ none :=
    fun hnone => h (List.argmax_eq_none.mp hnone)
  rcases Option.ne_none_iff_exists'.mp hne with ⟨m, hm⟩
  exact ⟨⟨rid, m.code, m.name⟩,
    List.mem_filterMap.mpr ⟨rid, hmem, by rw [hm]; rfl⟩, rfl⟩

lemma finalTable_none_of_empty_group {A G : Type} {e : GeomEngine G}
    {routes : List (RouteIn A G)} {regions : List (Region G)} {f : FinalRow}
    (hf : f ∈ finalTable e routes regions)
    (hempty : groupOf (cleanTable (intersectionsTable e (routesLen e routes) regions))
      f.routeId = []) :
    f.code = none ∧ f.name = none := by
  simp only [finalTable] at hf
  rcases List.mem_map.mp hf with ⟨r, _hr, heq⟩
  cases hfind : (primaryTable (cleanTable
      (intersectionsTable e (routesLen e routes) regions))).find?
      (fun p => p.routeId == r.routeId) with
  | none =>
    rw [hfind] at heq
    subst heq
    exact ⟨rfl, rfl⟩
  | some p =>
    rw [hfind] at heq
    subst heq
    have hp := List.mem_of_find?_eq_some hfind
    have hpr : p.routeId = r.routeId := by
      have := List.find?_some hfind
      simpa using this
    rcases primary_of_mem hp with ⟨m, hmg, _⟩
    rw [show (⟨r.routeId, some p.code, some p.name⟩ : FinalRow).routeId = r.routeId
      from rfl, ← hpr] at hempty
    rw [hempty] at hmg
    cases hmg

lemma wherePred_iff (cfg : Config) (total : Option ℚ) (lenm : ℚ) :
    wherePred cfg total lenm = true ↔
      cfg.minLengthM ≤ lenm ∧
        ∃ t, total = some t ∧ t ≠ 0 ∧ cfg.minShare ≤ lenm / t := by
  unfold wherePred sqlGe sqlDiv nullifZero
  cases total with
  | none => simp
  | some t =>
    by_cases ht : t = 0
    · simp [ht]
    · simp [ht]

lemma mem_survivors_iff {A G : Type} {rl : List (RouteLen A G)}
    {rows : List CleanRow} {cfg : Config} {i : CleanRow} {rt : RouteLen A G}
    (hfind : rl.find? (fun r => r.routeId == i.routeId) = some rt) :
    i ∈ survivors rl rows cfg ↔
      i ∈ rows ∧ cfg.minLengthM ≤ i.len ∧
        ∃ t, rt.lengthM = some t ∧ t ≠ 0 ∧ cfg.minShare ≤ i.len / t := by
  unfold survivors
  rw [List.mem_filter, hfind, wherePred_iff]

lemma mem_survivors_routeId {A G : Type} {rl : List (RouteLen A G)}
    {rows : List CleanRow} {cfg : Config} {i : CleanRow}
    (h : i ∈ survivors rl rows cfg) : i ∈ rows := by
  exact List.mem_of_mem_filter h

lemma membershipTable_spec {A G : Type} {rl : List (RouteLen A G)}
    {rows : List CleanRow} {cfg : Config} {m : MemRow}
    (hm : m ∈ membershipTable rl rows cfg) :
    ∃ g : List CleanRow, g ≠ [] ∧ g.Sorted lenGE ∧
      (∀ r ∈ g, r ∈ survivors rl rows cfg ∧ r.routeId = m.routeId) ∧
      m.codes = pipeJoin (g.map (fun r => r.code)) ∧
      m.names = pipeJoin (g.map (fun r => r.name)) := by
  simp only [membershipTable] at hm
  rcases List.mem_map.mp hm with ⟨rid, hrid, heq⟩
  subst heq
  refine ⟨lenDescSort (groupOf (survivors rl rows cfg) rid), ?_, ?_, ?_, rfl, rfl⟩
  · rcases List.mem_map.mp (List.mem_dedup.mp hrid) with ⟨s, hs, hsid⟩
    have hsg : s ∈ groupOf (survivors rl rows cfg) rid :=
      mem_groupOf.mpr ⟨hs, hsid⟩
    have : s ∈ lenDescSort (groupOf (survivors rl rows cfg) rid) :=
      (List.perm_insertionSort lenGE _).mem_iff.mpr hsg
    exact List.ne_nil_of_mem this
  · exact List.sorted_insertionSort lenGE _
  · intro r hr
    have : r ∈ groupOf (survivors rl rows cfg) rid :=
      (List.perm_insertionSort lenGE _).mem_iff.mp hr
    exact mem_groupOf.mp this

lemma intercalate_cons_of_ne_nil (sep a : List Char) :
    ∀ l : List (List Char), l ≠ [] →
      sep.intercalate (a :: l) = a ++ sep ++ sep.intercalate l
  | b :: t, _ => by
    simp [List.intercalate, List.intersperse_cons_cons]

lemma intercalate_concat_nil :
    ∀ ss : List (List Char), ss ≠ [] →
      ['|'].intercalate (ss ++ [([] : List Char)]) = ['|'].intercalate ss ++ ['|']
  | [a], _ => by
    simp [List.intercalate, List.intersperse_cons_cons]
  | a :: b :: t, _ => by
    have ih := intercalate_concat_nil (b :: t) (by simp)
    rw [List.cons_append, intercalate_cons_of_ne_nil _ _ _ (by simp),
      intercalate_cons_of_ne_nil _ _ _ (by simp), ih, List.append_assoc,
      List.append_assoc, List.append_assoc]

lemma pipeJoin_eq_intercalate :
    ∀ ss : List (List Char), ss ≠ [] →
      pipeJoin ss = ['|'].intercalate ([([] : List Char)] ++ ss ++ [[]])
  | a :: t, _ => by
    rw [List.singleton_append, List.cons_append,
      intercalate_cons_of_ne_nil _ _ ((a :: t) ++ [[]]) (by simp),
      intercalate_concat_nil (a :: t) (by simp)]
    simp [pipeJoin]

lemma pipeJoin_splitOn {ss : List (List Char)} (hne : ss ≠ [])
    (hx : ∀ s ∈ ss, '|' ∉ s) :
    (pipeJoin ss).splitOn '|' = [([] : List Char)] ++ ss ++ [[]] := by
  rw [pipeJoin_eq_intercalate ss hne]
  refine List.splitOn_intercalate _ '|' ?_ (by simp)
  intro l hl
  rcases List.mem_append.mp hl with hl' | hl'
  · rcases List.mem_append.mp hl' with hl'' | hl''
    · simp only [List.mem_singleton] at hl''
      subst hl''
      simp
    · exact hx l hl''
  · simp only [List.mem_singleton] at hl'
    subst hl'
    simp

lemma pipeJoin_head (ss : List (List Char)) : (pipeJoin ss).head? = some '|' := rfl

lemma pipeJoin_getLast (ss : List (List Char)) :
    (pipeJoin ss).getLast? = some '|' := by
  show ('|' :: (['|'].intercalate ss ++ ['|'])).getLast? = some '|'
  rw [← List.cons_append, List.getLast?_concat]

lemma safeJoin_some {root : List (List Char)} {rel : List Char}
    {t : List (List Char)} (h : safeJoin root rel = some t) : root <+: t := by
  simp only [safeJoin] at h
  split at h
  next hp =>
    injection h with h'
    subst h'
    exact List.isPrefixOf_iff_prefix.mp hp
  next => cases h

/-! ## Claim theorems -/

/-- C1 counterexample: with a non-empty region layer and a route whose
Overlap set is empty, the final assignment row carries NULL code and
name — the primary fields are absent, there is no nearest-region
fallback. -/
theorem empty_overlap_fallback_cex :
    ([regionA] : List (Region Unit)) ≠ [] ∧
    cleanTable (intersectionsTable unitEngineMiss
      (routesLen unitEngineMiss [exRoute]) [regionA]) = [] ∧
    finalTable unitEngineMiss [exRoute] [regionA] =
      [{ routeId := 1, code := none, name := none }] := by
  refine ⟨by simp, rfl, rfl⟩

/-- C1 (amended): for every route whose retained Overlap set for a layer
is empty — even when the region layer is non-empty — the pipeline leaves
that route's primary code and name absent (NULL); no distance-based
fallback assignment exists. -/
theorem empty_overlap_primary_absent {A G : Type} (e : GeomEngine G)
    (routes : List (RouteIn A G)) (regions : List (Region G)) (rid : ℕ)
    (hempty : groupOf (cleanTable (intersectionsTable e (routesLen e routes)
      regions)) rid = []) :
    ∀ f ∈ finalTable e routes regions, f.routeId = rid →
      f.code = none ∧ f.name = none := by
  intro f hf hfid
  exact finalTable_none_of_empty_group hf (by rw [hfid]; exact hempty)

/-- C1 witness: the amended theorem applied to the concrete no-overlap
input. -/
theorem empty_overlap_primary_absent_witness :
    ({ routeId := 1, code := none, name := none } : FinalRow).code = none ∧
    ({ routeId := 1, code := none, name := none } : FinalRow).name = none :=
  empty_overlap_primary_absent unitEngineMiss [exRoute] [regionA] 1 (by decide)
    { routeId := 1, code := none, name := none } (by decide) (by decide)

/-- C2: per layer the primary table holds at most one row per route id;
every primary row's code and name are those of a retained Overlap row of
maximum overlap length within the route's group; and a route with a
non-empty group does get a primary row. -/
theorem primary_unique_and_argmax (rows : List CleanRow) :
    ((primaryTable rows).map (fun p => p.routeId)).Nodup ∧
    (∀ p ∈ primaryTable rows,
      ∃ m ∈ groupOf rows p.routeId, p.code = m.code ∧ p.name = m.name ∧
        ∀ x ∈ groupOf rows p.routeId, x.len ≤ m.len) ∧
    (∀ rid : ℕ, groupOf rows rid ≠ [] →
      ∃ p ∈ primaryTable rows, p.routeId = rid) :=
  ⟨primaryTable_nodup rows, fun _ hp => primary_of_mem hp,
    fun _ h => primaryTable_exists h⟩

/-- C2 witness: the theorem applied to the concrete two-row group. -/
theorem primary_unique_and_argmax_witness :
    ∃ p ∈ primaryTable exCleanRows, p.routeId = 1 :=
  (primary_unique_and_argmax exCleanRows).2.2 1 (by decide)

lemma mem_cleanTable {rows : List InterRow} {r : CleanRow}
    (h : r ∈ cleanTable rows) :
    0 < r.len ∧ ∃ i ∈ rows, i.routeId = r.routeId ∧ i.code = r.code ∧
      i.name = r.name ∧ i.lenM = some r.len := by
  rcases List.mem_filterMap.mp h with ⟨i, hi, hfi⟩
  cases hl : i.lenM with
  | none =>
    simp only [hl] at hfi
    exact Option.noConfusion hfi
  | some l =>
    simp only [hl] at hfi
    by_cases h0 : 0 < l
    · rw [if_pos h0] at hfi
      injection hfi with h'
      subst h'
      exact ⟨h0, i, hi, rfl, rfl, rfl, hl⟩
    · rw [if_neg h0] at hfi
      cases hfi

lemma exRl_eq : exRl = [⟨1, (), (), (), some 100⟩] := by decide

lemma exRows_eq : exRows = [⟨1, ['A'], ['A'], 100⟩] := by decide

lemma exWherePred : wherePred exCfg (some 100) 100 = true := by
  show (decide ((10 : ℚ) ≤ 100) && decide ((1 / 4 : ℚ) ≤ 100 / 100)) = true
  norm_num

lemma exSurvivors_eq :
    survivors exRl exRows exCfg = [⟨1, ['A'], ['A'], 100⟩] := by
  norm_num [survivors, exRows_eq, exRl_eq, wherePred, sqlGe, sqlDiv, nullifZero,
    List.find?, List.filter_cons, exCfg, unitEngineHit, exRoute]

lemma exMem_eq : membershipTable exRl exRows exCfg =
    [⟨1, ['|', 'A', '|'], ['|', 'A', '|']⟩] := by
  simp only [membershipTable]
  rw [exSurvivors_eq]
  decide

/-- C3: a cleaned overlap row survives the membership filter iff its
length clears the absolute floor and, the route's total length being
defined and non-zero, its share of the total clears the share floor; a
route of total length zero can thus contribute no surviving row and gets
no membership entry at all. -/
theorem membership_filter_iff {A G : Type} (rl : List (RouteLen A G))
    (rows : List CleanRow) (cfg : Config) (i : CleanRow) (rt : RouteLen A G)
    (hfind : rl.find? (fun r => r.routeId == i.routeId) = some rt) :
    (i ∈ survivors rl rows cfg ↔
      i ∈ rows ∧ cfg.minLengthM ≤ i.len ∧
        ∃ t, rt.lengthM = some t ∧ t ≠ 0 ∧ cfg.minShare ≤ i.len / t) ∧
    (rt.lengthM = some 0 →
      ∀ m ∈ membershipTable rl rows cfg, m.routeId ≠ i.routeId) := by
  refine ⟨mem_survivors_iff hfind, ?_⟩
  intro h0 m hm hmr
  rcases membershipTable_spec hm with ⟨g, hg, _, hmem, _, _⟩
  rcases List.exists_mem_of_ne_nil _ hg with ⟨s, hs⟩
  rcases hmem s hs with ⟨hsurv, hsid⟩
  have hfind' : rl.find? (fun r => r.routeId == s.routeId) = some rt := by
    rw [hsid, hmr]
    exact hfind
  rcases (mem_survivors_iff hfind').mp hsurv with ⟨_, _, t, ht, htne, _⟩
  rw [h0] at ht
  injection ht with ht'
  exact htne ht'.symm

/-- C3 witness: the 100 m overlap of the all-hit engine survives the
10 m / 25 % thresholds. -/
theorem membership_filter_iff_witness :
    (⟨1, ['A'], ['A'], 100⟩ : CleanRow) ∈ survivors exRl exRows exCfg :=
  (membership_filter_iff exRl exRows exCfg
      ⟨1, ['A'], ['A'], 100⟩ ⟨1, (), (), (), some 100⟩ (by decide)).1.mpr
    ⟨by decide, by decide, 100, by decide, by decide,
      by show (1 / 4 : ℚ) ≤ 100 / 100; norm_num⟩

/-- C4: every membership row's codes string and names string split on the
delimiter into lists of equal length, and position by position the code
and the name come from the same overlap row (the same list of rows `g`
generates both). -/
theorem membership_parallel_lists {A G : Type} (rl : List (RouteLen A G))
    (rows : List CleanRow) (cfg : Config)
    (hcode : ∀ r ∈ rows, '|' ∉ r.code) (hname : ∀ r ∈ rows, '|' ∉ r.name) :
    ∀ m ∈ membershipTable rl rows cfg,
      (m.codes.splitOn '|').length = (m.names.splitOn '|').length ∧
      ∃ g : List CleanRow,
        m.codes.splitOn '|' =
          [([] : List Char)] ++ g.map (fun r => r.code) ++ [[]] ∧
        m.names.splitOn '|' =
          [([] : List Char)] ++ g.map (fun r => r.name) ++ [[]] := by
  intro m hm
  rcases membershipTable_spec hm with ⟨g, hg, _, hmem, hc, hn⟩
  have hgne : g.map (fun r => r.code) ≠ [] := fun h => hg (by simpa using h)
  have hgne2 : g.map (fun r => r.name) ≠ [] := fun h => hg (by simpa using h)
  have hcs : m.codes.splitOn '|' =
      [([] : List Char)] ++ g.map (fun r => r.code) ++ [[]] := by
    rw [hc]
    refine pipeJoin_splitOn hgne ?_
    intro s hs
    rcases List.mem_map.mp hs with ⟨r, hr, rfl⟩
    exact hcode r (mem_survivors_routeId (hmem r hr).1)
  have hns : m.names.splitOn '|' =
      [([] : List Char)] ++ g.map (fun r => r.name) ++ [[]] := by
    rw [hn]
    refine pipeJoin_splitOn hgne2 ?_
    intro s hs
    rcases List.mem_map.mp hs with ⟨r, hr, rfl⟩
    exact hname r (mem_survivors_routeId (hmem r hr).1)
  exact ⟨by rw [hcs, hns]; simp, g, hcs, hns⟩

/-- C4 witness: the theorem applied to the single-region concrete run. -/
theorem membership_parallel_lists_witness :
    ((⟨1, ['|', 'A', '|'], ['|', 'A', '|']⟩ : MemRow).codes.splitOn '|').length =
      ((⟨1, ['|', 'A', '|'], ['|', 'A', '|']⟩ : MemRow).names.splitOn '|').length :=
  (membership_parallel_lists exRl exRows exCfg (by decide) (by decide)
      ⟨1, ['|', 'A', '|'], ['|', 'A', '|']⟩
      (by rw [exMem_eq]; exact List.mem_singleton.mpr rfl)).1

/-- C5: every retained (cleaned) overlap row has a defined, strictly
positive length and stems from an intersection row whose computed length
was defined and positive; primary rows and membership rows are built
exclusively from such retained rows. -/
theorem clean_positive_only {A G : Type} (e : GeomEngine G)
    (rl : List (RouteLen A G)) (regions : List (Region G)) (cfg : Config) :
    (∀ r ∈ cleanTable (intersectionsTable e rl regions),
      0 < r.len ∧ ∃ i ∈ intersectionsTable e rl regions,
        i.routeId = r.routeId ∧ i.code = r.code ∧ i.name = r.name ∧
          i.lenM = some r.len) ∧
    (∀ p ∈ primaryTable (cleanTable (intersectionsTable e rl regions)),
      ∃ r ∈ cleanTable (intersectionsTable e rl regions),
        p.routeId = r.routeId ∧ p.code = r.code ∧ p.name = r.name) ∧
    (∀ m ∈ membershipTable rl (cleanTable (intersectionsTable e rl regions)) cfg,
      ∃ g : List CleanRow,
        (∀ r ∈ g, r ∈ cleanTable (intersectionsTable e rl regions) ∧ 0 < r.len) ∧
        m.codes = pipeJoin (g.map (fun r => r.code)) ∧
        m.names = pipeJoin (g.map (fun r => r.name))) := by
  refine ⟨fun r hr => mem_cleanTable hr, ?_, ?_⟩
  · intro p hp
    rcases primary_of_mem hp with ⟨m, hmg, hcode, hname, _⟩
    rcases mem_groupOf.mp hmg with ⟨hmem, hmid⟩
    exact ⟨m, hmem, hmid.symm, hcode, hname⟩
  · intro m hm
    rcases membershipTable_spec hm with ⟨g, _, _, hmem, hc, hn⟩
    refine ⟨g, fun r hr => ?_, hc, hn⟩
    have h1 := mem_survivors_routeId (hmem r hr).1
    exact ⟨h1, (mem_cleanTable h1).1⟩

/-- C5 witness: the theorem's first conjunct applied to the all-hit
concrete run. -/
theorem clean_positive_only_witness :
    0 < (⟨1, ['A'], ['A'], 100⟩ : CleanRow).len ∧
    ∃ i ∈ intersectionsTable unitEngineHit
        (routesLen unitEngineHit [exRoute]) [regionA],
      i.routeId = (⟨1, ['A'], ['A'], 100⟩ : CleanRow).routeId ∧
      i.code = (⟨1, ['A'], ['A'], 100⟩ : CleanRow).code ∧
      i.name = (⟨1, ['A'], ['A'], 100⟩ : CleanRow).name ∧
      i.lenM = some (⟨1, ['A'], ['A'], 100⟩ : CleanRow).len :=
  (clean_positive_only unitEngineHit (routesLen unitEngineHit [exRoute])
      [regionA] exCfg).1 ⟨1, ['A'], ['A'], 100⟩ (by decide)

/-- C6 counterexample: region `C` is still invalid (the warning reports a
count of 1), yet it is not excluded from matching: it becomes route 1's
primary assignment. -/
theorem invalid_region_excluded_cex :
    invalidCount unitEngineInvalid [regionC] = 1 ∧
    invalidWarning unitEngineInvalid [regionC] = some 1 ∧
    primaryTable (cleanTable (intersectionsTable unitEngineInvalid
      (routesLen unitEngineInvalid [exRoute]) [regionC])) =
      [⟨1, ['C'], ['C']⟩] :=
  ⟨by decide, by decide, by decide⟩

/-- C6 (amended): regions whose geometry is still invalid after repair
are NOT excluded from matching — neither `routes_len` nor the
intersection join consults the validity oracle (replacing it changes
nothing) — but a warning carrying the count of still-invalid regions is
surfaced and the run continues. -/
theorem invalid_region_warning_only {A G : Type} (e : GeomEngine G)
    (v : G → Bool) (routes : List (RouteIn A G)) (regions : List (Region G)) :
    routesLen (withValid e v) routes = routesLen e routes ∧
    intersectionsTable (withValid e v) (routesLen e routes) regions =
      intersectionsTable e (routesLen e routes) regions ∧
    (0 < invalidCount e regions →
      invalidWarning e regions = some (invalidCount e regions)) := by
  refine ⟨rfl, rfl, fun h => ?_⟩
  unfold invalidWarning
  rw [if_pos h]

/-- C6 witness: the amended theorem applied to the invalid-region run. -/
theorem invalid_region_warning_only_witness :
    invalidWarning unitEngineInvalid [regionC] =
      some (invalidCount unitEngineInvalid [regionC]) :=
  (invalid_region_warning_only unitEngineInvalid (fun _ => true) [exRoute]
      [regionC]).2.2 (by decide)

/-- C7: given non-empty, delimiter-free region codes, every membership
row's codes string starts and ends with the delimiter, splits into
exactly the generating group's codes with no empty interior segment, and
that group is ordered by non-increasing overlap length. -/
theorem membership_string_format {A G : Type} (rl : List (RouteLen A G))
    (rows : List CleanRow) (cfg : Config)
    (hcode : ∀ r ∈ rows, r.code ≠ [] ∧ '|' ∉ r.code) :
    ∀ m ∈ membershipTable rl rows cfg,
      m.codes.head? = some '|' ∧ m.codes.getLast? = some '|' ∧
      ∃ g : List CleanRow, g ≠ [] ∧
        m.codes.splitOn '|' =
          [([] : List Char)] ++ g.map (fun r => r.code) ++ [[]] ∧
        (∀ s ∈ g.map (fun r => r.code), s ≠ []) ∧
        (g.map (fun r => r.len)).Sorted (fun a b : ℚ => b ≤ a) := by
  intro m hm
  rcases membershipTable_spec hm with ⟨g, hg, hsort, hmem, hc, _⟩
  have hcg : ∀ r ∈ g, r.code ≠ [] ∧ '|' ∉ r.code := fun r hr =>
    hcode r (mem_survivors_routeId (hmem r hr).1)
  have hmapne : g.map (fun r => r.code) ≠ [] := fun h => hg (by simpa using h)
  refine ⟨by rw [hc]; exact pipeJoin_head _,
    by rw [hc]; exact pipeJoin_getLast _, g, hg, ?_, ?_, ?_⟩
  · rw [hc]
    refine pipeJoin_splitOn hmapne ?_
    intro s hs
    rcases List.mem_map.mp hs with ⟨r, hr, rfl⟩
    exact (hcg r hr).2
  · intro s hs
    rcases List.mem_map.mp hs with ⟨r, hr, rfl⟩
    exact (hcg r hr).1
  · have hp : List.Pairwise lenGE g := hsort
    exact hp.map (fun r : CleanRow => r.len) (fun a b h => h)

/-- C7 witness: the theorem applied to the single-region concrete run. -/
theorem membership_string_format_witness :
    (⟨1, ['|', 'A', '|'], ['|', 'A', '|']⟩ : MemRow).codes.head? = some '|' :=
  (membership_string_format exRl exRows exCfg (by decide)
      ⟨1, ['|', 'A', '|'], ['|', 'A', '|']⟩
      (by rw [exMem_eq]; exact List.mem_singleton.mpr rfl)).1

/-- C9: the output assembler emits exactly one record per input route
(the eight enrichment fields are optional and may be absent), and each
record's geometry is the route's original geometry, not the projected
one. -/
theorem routes_out_one_per_route {A G : Type} (e : GeomEngine G)
    (routes : List (RouteIn A G)) (las rpts : List (Region G)) (cfg : Config) :
    (routesOut e routes las rpts cfg).length = routes.length ∧
    ∀ (i : ℕ) (h1 : i < (routesOut e routes las rpts cfg).length)
      (h2 : i < routes.length),
      ((routesOut e routes las rpts cfg).get ⟨i, h1⟩).geometry =
        (routes.get ⟨i, h2⟩).geom := by
  constructor
  · simp [routesOut, routesLen]
  · intro i h1 h2
    simp [routesOut, routesLen, List.get_eq_getElem, List.getElem_map,
      List.getElem_enum]

/-- C9 witness: the theorem applied to the no-hit concrete run. -/
theorem routes_out_one_per_route_witness :
    ((routesOut unitEngineMiss [exRoute] [regionA] [regionA] exCfg).get
        ⟨0, by decide⟩).geometry =
      (([exRoute] : List (RouteIn Unit Unit)).get ⟨0, by decide⟩).geom :=
  (routes_out_one_per_route unitEngineMiss [exRoute] [regionA] [regionA]
      exCfg).2 0 (by decide) (by decide)

/-- C10: path translation is confined to the two roots: a request whose
normalized path falls under /data translates to a path with the data
root as a segment prefix, and every other request to one with the public
root as prefix (resolution modelled lexically, symlink-free). -/
theorem translate_path_confined (dataRoot publicRoot : List (List Char))
    (path : List Char) :
    ((normpath (stripQueryFrag path) == dataLit ||
        dataSlashLit.isPrefixOf (normpath (stripQueryFrag path))) = true →
      dataRoot <+: translatePath dataRoot publicRoot path) ∧
    ((normpath (stripQueryFrag path) == dataLit ||
        dataSlashLit.isPrefixOf (normpath (stripQueryFrag path))) = false →
      publicRoot <+: translatePath dataRoot publicRoot path) := by
  constructor
  · intro hcond
    simp only [translatePath, hcond, if_true]
    rcases hsj : safeJoin dataRoot ((normpath (stripQueryFrag path)).drop 5)
      with _ | t
    · exact List.prefix_refl _
    · exact safeJoin_some hsj
  · intro hcond
    simp only [translatePath, hcond, Bool.false_eq_true, if_false]
    by_cases hp : normpath (stripQueryFrag path) = ['/']
    · rw [if_pos hp]
      rcases hsj : safeJoin publicRoot slashIndexLit with _ | t
      · exact List.prefix_append _ _
      · exact safeJoin_some hsj
    · rw [if_neg hp]
      rcases hsj : safeJoin publicRoot (normpath (stripQueryFrag path))
        with _ | t
      · exact List.prefix_append _ _
      · exact safeJoin_some hsj

/-- C10 witness: the theorem applied to a concrete /data request with a
query suffix. -/
theorem translate_path_confined_witness :
    [['s'], ['d']] <+: translatePath [['s'], ['d']] [['p']] "/data/x?q=1".toList :=
  (translate_path_confined [['s'], ['d']] [['p']] ("/data/x?q=1".toList)).1
    (by decide)

end NetworkView
